import Mathlib

/-!
Verification of the KeyQuest adaptive quiz engine (src/adaptivequiz.cpp,
src/adaptivequiz.h, src/state.h, src/question.h).

The C++ engine is shallowly embedded: `std::map` containers become sorted
association lists with the exact `operator[]` (default-insert) semantics,
`float` arithmetic is modelled by exact rationals, and the `rand()` draws of
`getNextAction` become explicit oracle parameters.  C++ `int` is modelled by
`Int` (all engine counters are reset well below any machine bound).
-/

namespace KeyQuest

/-- SkillState from src/state.h: three integer skill levels. -/
structure State where
  notes : Int
  chords : Int
  scales : Int
deriving DecidableEq, Repr

/-- The strict lexicographic order of State::operator< (state.h lines 41-49),
used by std::map<State, ...> for key placement. -/
def State.ltb (a b : State) : Bool :=
  if a.notes < b.notes then true
  else if a.notes > b.notes then false
  else if a.chords < b.chords then true
  else if a.chords > b.chords then false
  else decide (a.scales < b.scales)

/-- Question from src/question.h, restricted to the fields the quiz engine
reads (topicID, difficulty, description); the remaining fields (id, title,
expectedInput, topicName) are never consulted by AdaptiveQuiz. -/
structure Question where
  topicID : Int
  difficulty : Int
  description : String
deriving DecidableEq, Repr

/-- The Question that std::map::operator[] constructs under a missing key:
integer fields zero, empty strings. -/
def defaultQuestion : Question := { topicID := 0, difficulty := 0, description := "" }

/-- First-match lookup in an association list (std::map::find). -/
def lookup? {κ α : Type} [DecidableEq κ] : List (κ × α) → κ → Option α
  | [], _ => none
  | (k, v) :: rest, key => if k = key then some v else lookup? rest key

/-- Store a value under a key: overwrite the first occurrence if the key is
present, otherwise insert at the position determined by the strict order
`lt` (std::map keeps its entries sorted by key). -/
def setKey {κ α : Type} [DecidableEq κ] (lt : κ → κ → Bool) :
    List (κ × α) → κ → α → List (κ × α)
  | [], key, v => [(key, v)]
  | (k, w) :: rest, key, v =>
      if k = key then (key, v) :: rest
      else if lt key k then (key, v) :: (k, w) :: rest
      else (k, w) :: setKey lt rest key v

/-- std::map::operator[] read-side effect: if the key is missing, insert the
given default value; otherwise leave the map unchanged. -/
def touchKey {κ α : Type} [DecidableEq κ] (lt : κ → κ → Bool)
    (m : List (κ × α)) (key : κ) (dflt : α) : List (κ × α) :=
  if (lookup? m key).isSome then m else setKey lt m key dflt

/-- Strict order on Int keys, as used by std::map<int, ...>. -/
def intLtb (a b : Int) : Bool := decide (a < b)

/-- The question bank: std::map<int, Question> as a sorted association list. -/
abbrev Bank := List (Int × Question)

/-- One row of the Q-table: std::map<int, float>. -/
abbrev Row := List (Int × ℚ)

/-- The Q-table: std::map<State, std::map<int, float>>. -/
abbrev QTable := List (State × Row)

/-- questionBankByID[qid] as a read-write access (operator[]): inserts a
zero-filled default Question when qid is absent. -/
def touchBank (bank : Bank) (qid : Int) : Bank :=
  touchKey intLtb bank qid defaultQuestion

/-- Read a counter map with the operator[] default of 0. -/
def cntGet (m : List (Int × Int)) (k : Int) : Int := (lookup? m k).getD 0

/-- Read a Q-value with the absent-entry default of 0.0. -/
def qvalGet (qt : QTable) (s : State) (a : Int) : ℚ :=
  (lookup? ((lookup? qt s).getD []) a).getD 0

/-- Lookup of an entry inside the row of state s (presence-observing). -/
def rowLookup (qt : QTable) (s : State) (a : Int) : Option ℚ :=
  lookup? ((lookup? qt s).getD []) a

/-- q_table[s][a] as a read-side operator[] chain: materialize the row for s
and a 0.0 entry for a when absent. -/
def qtouch (qt : QTable) (s : State) (a : Int) : QTable :=
  let row := (lookup? qt s).getD []
  let row1 := if (lookup? row a).isSome then row else setKey intLtb row a 0
  setKey State.ltb qt s row1

/-- Write q_table[s][a] := v. -/
def qset (qt : QTable) (s : State) (a : Int) (v : ℚ) : QTable :=
  setKey State.ltb qt s (setKey intLtb ((lookup? qt s).getD []) a v)

/-- Learning rate lr = 0.1f (adaptivequiz.cpp line 39). -/
def lr : ℚ := 1 / 10

/-- Discount factor df = 0.9f (adaptivequiz.cpp line 40). -/
def df : ℚ := 9 / 10

/-- correctThreshold = 4 (adaptivequiz.cpp line 41). -/
def correctThreshold : Int := 4

/-- incorrectThreshold = 4 (adaptivequiz.cpp line 42). -/
def incorrectThreshold : Int := 4

/-- The candidate filter predicate of getActionsForStateLevel
(adaptivequiz.cpp lines 68-70). -/
def qualifies (st : State) (stretchAmount : Int) (q : Question) : Bool :=
  decide ((q.topicID = 101 ∧ q.difficulty ≤ st.notes + stretchAmount) ∨
    (102 ≤ q.topicID ∧ q.topicID ≤ 103 ∧ q.difficulty ≤ st.chords + stretchAmount) ∨
    (104 ≤ q.topicID ∧ q.difficulty ≤ st.scales + stretchAmount))

/-- AdaptiveQuiz::getActionsForStateLevel (adaptivequiz.cpp lines 57-75):
ids of bank questions whose difficulty fits the current state, with an extra
stretch level when allowSlightStretch holds.  Iteration follows bank order. -/
def getActionsForStateLevel (bank : Bank) (st : State) (allowSlightStretch : Bool) :
    List Int :=
  let stretchAmount : Int := if allowSlightStretch then 1 else 0
  (bank.filter (fun p => qualifies st stretchAmount p.2)).map Prod.fst

/-- AdaptiveQuiz::getReward (adaptivequiz.cpp lines 190-195). -/
def getReward (before after : State) (correct : Bool) : ℚ :=
  if correct = true ∧ (after.notes > before.notes ∨ after.chords > before.chords ∨
      after.scales > before.scales) then 5
  else if correct = true then 5 / 2
  else -(5 / 2)

/-- The running-max loop body of AdaptiveQuiz::maxQValue
(adaptivequiz.cpp lines 206-208). -/
def rowMax : Row → ℚ → ℚ
  | [], m => m
  | (_, q) :: rest, m => rowMax rest (if q > m then q else m)

/-- AdaptiveQuiz::maxQValue (adaptivequiz.cpp lines 203-210): 0.0 for a state
with no row, otherwise the row maximum floored at 0.0. -/
def maxQValue (qt : QTable) (s : State) : ℚ :=
  match lookup? qt s with
  | none => 0
  | some row => rowMax row 0

/-- AdaptiveQuiz::updateQTable (adaptivequiz.cpp lines 264-268).  The C++
takes the reference q_table[currentState][questionID] first (materializing a
0.0 entry), then computes maxQValue(nextState) on the touched table. -/
def updateQTable (qt : QTable) (currentState : State) (questionID : Int)
    (reward : ℚ) (nextState : State) : QTable :=
  let qt1 := qtouch qt currentState questionID
  let q := qvalGet qt1 currentState questionID
  let nextMax := maxQValue qt1 nextState
  qset qt1 currentState questionID (q + lr * (reward + df * nextMax - q))

/-- The difficulty weighting of updateState (adaptivequiz.cpp lines 225-227):
points = 1, overridden to 2 when difficulty == 1 and to 3 when == 2. -/
def pointsFor (difficulty : Int) : Int :=
  let p : Int := 1
  let p := if difficulty = 1 then 2 else p
  if difficulty = 2 then 3 else p

/-- The promotion step of updateState (adaptivequiz.cpp lines 237-239): three
independent guarded increments, each capped below 2. -/
def promote (topicID : Int) (s : State) : State :=
  let s := if topicID = 101 ∧ s.notes < 2 then { s with notes := s.notes + 1 } else s
  let s := if 102 ≤ topicID ∧ topicID ≤ 103 ∧ s.chords < 2 then
    { s with chords := s.chords + 1 } else s
  if 104 ≤ topicID ∧ s.scales < 2 then { s with scales := s.scales + 1 } else s

/-- The demotion step of updateState (adaptivequiz.cpp lines 248-250): three
independent guarded decrements, each floored above 0. -/
def demote (topicID : Int) (s : State) : State :=
  let s := if topicID = 101 ∧ s.notes > 0 then { s with notes := s.notes - 1 } else s
  let s := if 102 ≤ topicID ∧ topicID ≤ 103 ∧ s.chords > 0 then
    { s with chords := s.chords - 1 } else s
  if 104 ≤ topicID ∧ s.scales > 0 then { s with scales := s.scales - 1 } else s

/-- Result record of updateState: the (possibly touched) bank, both streak
counter maps, and the updated skill state. -/
structure UpdateStateResult where
  bank : Bank
  correctCounts : List (Int × Int)
  incorrectCounts : List (Int × Int)
  state : State
deriving DecidableEq, Repr

/-- AdaptiveQuiz::updateState (adaptivequiz.cpp lines 220-254).  The two
operator[] reads on questionBankByID insert a zero-filled default Question when
questionID is absent from the bank. -/
def updateState (bank : Bank) (cc ic : List (Int × Int)) (questionID : Int)
    (correct : Bool) (currentState : State) : UpdateStateResult :=
  let bank1 := touchBank bank questionID
  let q := (lookup? bank1 questionID).getD defaultQuestion
  let points := pointsFor q.difficulty
  if correct then
    let newCC := cntGet cc questionID + points
    let cc1 := setKey intLtb cc questionID newCC
    let ic1 := setKey intLtb ic questionID 0
    if newCC ≥ correctThreshold then
      { bank := bank1, correctCounts := setKey intLtb cc1 questionID 0,
        incorrectCounts := ic1, state := promote q.topicID currentState }
    else
      { bank := bank1, correctCounts := cc1, incorrectCounts := ic1,
        state := currentState }
  else
    let newIC := cntGet ic questionID + 1
    let ic1 := setKey intLtb ic questionID newIC
    let cc1 := setKey intLtb cc questionID 0
    if newIC ≥ incorrectThreshold then
      { bank := bank1, correctCounts := cc1,
        incorrectCounts := setKey intLtb ic1 questionID 0,
        state := demote q.topicID currentState }
    else
      { bank := bank1, correctCounts := cc1, incorrectCounts := ic1,
        state := currentState }

/-- The whole mutable state of an AdaptiveQuiz object (adaptivequiz.h
lines 34-82; lr, df and the two thresholds are the constants above). -/
structure Quiz where
  q_table : QTable
  state : State
  questionBankByID : Bank
  history : List (State × Int × String × Bool)
  askedQuestionsThisSession : List Int
  correctCounts : List (Int × Int)
  incorrectCounts : List (Int × Int)
  score : ℚ
  correctAnswers : Int
  totalQuestions : Int
deriving DecidableEq, Repr

/-- The AdaptiveQuiz constructor (adaptivequiz.cpp lines 31-45): empty
history, asked-set and streak counters; zeroed session counters. -/
def mkQuiz (questionBank : Bank) (qTable : QTable) (initialState : State) : Quiz :=
  { q_table := qTable, state := initialState, questionBankByID := questionBank,
    history := [], askedQuestionsThisSession := [],
    correctCounts := [], incorrectCounts := [],
    score := 0, correctAnswers := 0, totalQuestions := 0 }

/-- std::unordered_set insert: add the id unless already a member. -/
def insertAsked (asked : List Int) (qid : Int) : List Int :=
  if asked.contains qid then asked else asked ++ [qid]

/-- The tiered exploration probability of getNextAction
(adaptivequiz.cpp lines 85-95). -/
def epsilonFor (s : State) : ℚ :=
  let avgLevel := (s.notes + s.chords + s.scales) / 3
  if avgLevel = 0 then 9 / 10
  else if avgLevel = 1 then 7 / 10
  else 5 / 10

/-- Index into a list by a raw rand() draw modulo the length
(the vector[rand() % size] idiom); none on an empty list. -/
def pick (l : List Int) (r : Nat) : Option Int := l.get? (r % l.length)

/-- The explore-branch bucketing loop of getNextAction (adaptivequiz.cpp
lines 120-126), threading the operator[] reads on the bank.  Buckets:
topic 101 to notesQ, else topic in [101,102] to chordsQ, else topic 104 to
scalesQ; other topics fall through unbucketed. -/
def groupScan (bank : Bank) : List Int → Bank × List Int × List Int × List Int
  | [] => (bank, [], [], [])
  | qid :: rest =>
      let bank1 := touchBank bank qid
      let tid := ((lookup? bank1 qid).getD defaultQuestion).topicID
      let r := groupScan bank1 rest
      if tid = 101 then (r.1, qid :: r.2.1, r.2.2.1, r.2.2.2)
      else if 101 ≤ tid ∧ tid ≤ 102 then (r.1, r.2.1, qid :: r.2.2.1, r.2.2.2)
      else if tid = 104 then (r.1, r.2.1, r.2.2.1, qid :: r.2.2.2)
      else r

/-- The exploit-branch scan of getNextAction (adaptivequiz.cpp lines
142-150): walk the filtered pool, reading q_table[state][qid] through
operator[] (which materializes missing entries at 0.0), and keep the first
id whose value strictly exceeds the running best. -/
def exploitLoop (s : State) : QTable → List Int → Int → ℚ → QTable × Int × ℚ
  | qt, [], best, bv => (qt, best, bv)
  | qt, qid :: rest, best, bv =>
      let qt1 := qtouch qt s qid
      let q := qvalGet qt1 s qid
      if q > bv then exploitLoop s qt1 rest qid q
      else exploitLoop s qt1 rest best bv

/-- The sentinel initial best value -1e9 (adaptivequiz.cpp line 143). -/
def sentinel : ℚ := -1000000000

/-- The candidate pool of getNextAction before session filtering
(adaptivequiz.cpp line 99): the stretch flag is the explore coin flip. -/
def candidatesOf (qz : Quiz) (explore : Bool) : List Int :=
  getActionsForStateLevel qz.questionBankByID qz.state explore

/-- The candidate pool with already-asked ids removed
(adaptivequiz.cpp lines 102-107). -/
def filteredOf (qz : Quiz) (explore : Bool) : List Int :=
  (candidatesOf qz explore).filter
    (fun qid => !(qz.askedQuestionsThisSession.contains qid))

/-- The pool actually used after the all-asked reset (adaptivequiz.cpp
lines 109-113): when the session filter empties the pool, fall back to the
unfiltered candidates. -/
def effectivePool (qz : Quiz) (explore : Bool) : List Int :=
  if (filteredOf qz explore).isEmpty then candidatesOf qz explore
  else filteredOf qz explore

/-- AdaptiveQuiz::getNextAction (adaptivequiz.cpp lines 84-155).  The three
rand() draws are oracle parameters: `explore` is the outcome of the epsilon
comparison on line 97, `randChoice` the raw draw for the bucket choice on
line 129, `randIdx` the raw draw for the index picks on lines 135/137.
Dereferencing begin() of an empty bank (line 115) is undefined behavior in
C++ and is modelled as returning no id. -/
def getNextAction (qz : Quiz) (explore : Bool) (randChoice randIdx : Nat) :
    Option Int × Quiz :=
  let asked1 := if (filteredOf qz explore).isEmpty then ([] : List Int)
    else qz.askedQuestionsThisSession
  match effectivePool qz explore with
  | [] =>
      match qz.questionBankByID with
      | [] => (none, { qz with askedQuestionsThisSession := asked1 })
      | (k, _) :: _ => (some k, { qz with askedQuestionsThisSession := asked1 })
  | h :: t =>
      if explore then
        let g := groupScan qz.questionBankByID (h :: t)
        let notesQ := g.2.1
        let chordsQ := g.2.2.1
        let scalesQ := g.2.2.2
        let choice := randChoice % 3
        let group : Option (List Int) :=
          if choice = 0 ∧ notesQ ≠ [] then some notesQ
          else if choice = 1 ∧ chordsQ ≠ [] then some chordsQ
          else if choice = 2 ∧ scalesQ ≠ [] then some scalesQ
          else none
        let res := match group with
          | some grp => pick grp randIdx
          | none => pick (h :: t) randIdx
        (res, { qz with questionBankByID := g.1,
                        askedQuestionsThisSession := asked1 })
      else
        let e := exploitLoop qz.state qz.q_table (h :: t) h sentinel
        (some e.2.1, { qz with q_table := e.1,
                               askedQuestionsThisSession := asked1 })

/-- AdaptiveQuiz::evaluateResponse (adaptivequiz.cpp lines 350-379).  The
history entry is appended first (with the bank read through operator[],
inserting a zero-filled default Question for an unknown id), then scoring,
then the skill update, reward, Q-table update, and the asked-set insert. -/
def evaluateResponse (qz : Quiz) (questionID : Int) (correct : Bool) : Quiz :=
  let bank1 := touchBank qz.questionBankByID questionID
  let desc := ((lookup? bank1 questionID).getD defaultQuestion).description
  let history1 := qz.history ++ [(qz.state, questionID, desc, correct)]
  let totalQuestions1 := qz.totalQuestions + 1
  let correctAnswers1 := if correct then qz.correctAnswers + 1 else qz.correctAnswers
  let score1 := if correct then qz.score + 10
    else if qz.score - 5 < 0 then 0 else qz.score - 5
  let stateBefore := qz.state
  let r := updateState bank1 qz.correctCounts qz.incorrectCounts questionID
    correct qz.state
  let reward := getReward stateBefore r.state correct
  let qt1 := updateQTable qz.q_table stateBefore questionID reward r.state
  { q_table := qt1, state := r.state, questionBankByID := r.bank,
    history := history1,
    askedQuestionsThisSession := insertAsked qz.askedQuestionsThisSession questionID,
    correctCounts := r.correctCounts, incorrectCounts := r.incorrectCounts,
    score := score1, correctAnswers := correctAnswers1,
    totalQuestions := totalQuestions1 }

/-- One externally visible engine operation. -/
inductive Event where
  | select (explore : Bool) (randChoice randIdx : Nat)
  | answer (questionID : Int) (correct : Bool)
deriving DecidableEq, Repr

/-- Apply one operation to the engine state. -/
def stepEvent (qz : Quiz) : Event → Quiz
  | .select e rc ri => (getNextAction qz e rc ri).2
  | .answer qid c => evaluateResponse qz qid c

/-- Run a sequence of engine operations. -/
def runEvents (qz : Quiz) (evs : List Event) : Quiz := evs.foldl stepEvent qz

/-- The skill-state bounds invariant: each domain level in [0,2]. -/
def inRange (s : State) : Prop :=
  0 ≤ s.notes ∧ s.notes ≤ 2 ∧ 0 ≤ s.chords ∧ s.chords ≤ 2 ∧
    0 ≤ s.scales ∧ s.scales ≤ 2

instance (s : State) : Decidable (inRange s) := by
  unfold inRange
  infer_instance

lemma lookup_setKey_self {κ α : Type} [DecidableEq κ] (lt : κ → κ → Bool)
    (m : List (κ × α)) (k : κ) (v : α) :
    lookup? (setKey lt m k v) k = some v := by
  induction m with
  | nil => simp [setKey, lookup?]
  | cons p rest ih =>
      obtain ⟨k1, w⟩ := p
      unfold setKey
      split_ifs with h1 h2
      · simp [lookup?]
      · simp [lookup?]
      · simpa [lookup?, h1] using ih

lemma lookup_setKey_ne {κ α : Type} [DecidableEq κ] (lt : κ → κ → Bool)
    (m : List (κ × α)) (k k' : κ) (v : α) (hne : k' ≠ k) :
    lookup? (setKey lt m k v) k' = lookup? m k' := by
  have hkk : ¬ k = k' := fun hh => hne hh.symm
  induction m with
  | nil => simp [setKey, lookup?, hkk]
  | cons p rest ih =>
      obtain ⟨k1, w⟩ := p
      unfold setKey
      split_ifs with h1 h2
      · subst h1
        simp [lookup?, hkk]
      · simp [lookup?, hkk]
      · simp [lookup?, ih]

lemma lookup_touchKey_self {κ α : Type} [DecidableEq κ] (lt : κ → κ → Bool)
    (m : List (κ × α)) (k : κ) (d : α) :
    lookup? (touchKey lt m k d) k = some ((lookup? m k).getD d) := by
  unfold touchKey
  cases hm : lookup? m k with
  | none => simp [hm, lookup_setKey_self]
  | some x => simp [hm]

lemma touchKey_of_isSome {κ α : Type} [DecidableEq κ] (lt : κ → κ → Bool)
    (m : List (κ × α)) (k : κ) (d : α) (h : (lookup? m k).isSome) :
    touchKey lt m k d = m := by
  unfold touchKey
  simp [h]

lemma lookup_isSome_of_mem {κ α : Type} [DecidableEq κ]
    (m : List (κ × α)) (k : κ) (v : α) (h : (k, v) ∈ m) :
    (lookup? m k).isSome := by
  induction m with
  | nil => simp at h
  | cons p rest ih =>
      obtain ⟨k1, w⟩ := p
      rcases List.mem_cons.mp h with h1 | h1
      · cases h1
        simp [lookup?]
      · unfold lookup?
        split_ifs with he
        · simp
        · exact ih h1

lemma rowMax_setKey_zero (row : Row) (a : Int) (m : ℚ) (h0 : 0 ≤ m)
    (habs : lookup? row a = none) :
    rowMax (setKey intLtb row a 0) m = rowMax row m := by
  induction row generalizing m with
  | nil =>
      simp only [setKey, rowMax]
      have : ¬((0 : ℚ) > m) := by linarith
      simp [this]
  | cons p rest ih =>
      obtain ⟨k1, w⟩ := p
      have hk : ¬ k1 = a := by
        intro hh
        unfold lookup? at habs
        rw [if_pos hh] at habs
        exact Option.noConfusion habs
      have habs1 : lookup? rest a = none := by
        unfold lookup? at habs
        rwa [if_neg hk] at habs
      unfold setKey
      rw [if_neg hk]
      split_ifs with h2
      · simp only [rowMax]
        have hng : ¬((0 : ℚ) > m) := by linarith
        simp [hng]
      · simp only [rowMax]
        apply ih _ _ habs1
        split_ifs with h3
        · linarith
        · exact h0

lemma maxQValue_qtouch (qt : QTable) (s : State) (a : Int) (s2 : State) :
    maxQValue (qtouch qt s a) s2 = maxQValue qt s2 := by
  unfold qtouch maxQValue
  by_cases hs : s2 = s
  · subst hs
    rw [lookup_setKey_self]
    cases hr : lookup? qt s2 with
    | none =>
        simp only [hr, Option.getD_none]
        simp [lookup?, setKey, rowMax]
    | some row =>
        simp only [hr, Option.getD_some]
        cases ha : (lookup? row a).isSome with
        | true => simp [ha]
        | false =>
            simp only [ha, Bool.false_eq_true, if_false]
            exact rowMax_setKey_zero row a 0 le_rfl
              (Option.not_isSome_iff_eq_none.mp (by simp [ha]))
  · rw [lookup_setKey_ne _ _ _ _ _ hs]

lemma qvalGet_qtouch (qt : QTable) (s : State) (a : Int) (s2 : State) (b : Int) :
    qvalGet (qtouch qt s a) s2 b = qvalGet qt s2 b := by
  unfold qtouch qvalGet
  by_cases hs : s2 = s
  · subst hs
    rw [lookup_setKey_self]
    cases ha : (lookup? ((lookup? qt s2).getD []) a).isSome with
    | true => simp [ha]
    | false =>
        simp only [ha, Bool.false_eq_true, if_false, Option.getD_some]
        by_cases hb : b = a
        · subst hb
          rw [lookup_setKey_self]
          have : lookup? ((lookup? qt s2).getD []) b = none :=
            Option.not_isSome_iff_eq_none.mp (by simp [ha])
          simp [this]
        · rw [lookup_setKey_ne _ _ _ _ _ hb]
  · rw [lookup_setKey_ne _ _ _ _ _ hs]

lemma qvalGet_qset_self (qt : QTable) (s : State) (a : Int) (v : ℚ) :
    qvalGet (qset qt s a v) s a = v := by
  unfold qset qvalGet
  rw [lookup_setKey_self]
  simp [lookup_setKey_self]

lemma le_rowMax_init (row : Row) : ∀ m : ℚ, m ≤ rowMax row m := by
  induction row with
  | nil => intro m; exact le_refl m
  | cons p rest ih =>
      intro m
      obtain ⟨k, w⟩ := p
      simp only [rowMax]
      refine le_trans ?_ (ih _)
      split_ifs with hw
      · exact le_of_lt hw
      · exact le_refl m

lemma mem_le_rowMax (row : Row) : ∀ (m : ℚ), ∀ p ∈ row, p.2 ≤ rowMax row m := by
  induction row with
  | nil => intro m p hp; simp at hp
  | cons q rest ih =>
      intro m p hp
      obtain ⟨k, w⟩ := q
      rcases List.mem_cons.mp hp with h1 | h1
      · subst h1
        simp only [rowMax]
        refine le_trans ?_ (le_rowMax_init rest _)
        split_ifs with hw
        · exact le_refl _
        · exact not_lt.mp hw
      · exact ih _ p h1

lemma rowMax_cases (row : Row) : ∀ m : ℚ,
    rowMax row m = m ∨ ∃ p ∈ row, p.2 = rowMax row m := by
  induction row with
  | nil => intro m; exact Or.inl rfl
  | cons q rest ih =>
      intro m
      obtain ⟨k, w⟩ := q
      simp only [rowMax]
      rcases ih (if w > m then w else m) with h1 | ⟨p, hp, hpe⟩
      · rw [h1]
        split_ifs with hw
        · exact Or.inr ⟨(k, w), List.mem_cons_self _ _, rfl⟩
        · exact Or.inl rfl
      · exact Or.inr ⟨p, List.mem_cons_of_mem _ hp, hpe⟩

/-- C2.  A single updateQTable call stores exactly
old + 0.1 * (reward + 0.9 * maxQ(nextState) - old), with old the previous
entry or 0.0 and maxQ the zero-floored row maximum of the original table
(0.0 for a state with no entries, at least every stored value, and either
0.0 or one of the stored values, so rows of negative values report 0.0);
from an empty table one update yields 0.1 * reward. -/
theorem C2_qlearning_update (qt : QTable) (s : State) (a : Int) (r : ℚ)
    (s2 : State) :
    (qvalGet (updateQTable qt s a r s2) s a
      = qvalGet qt s a + lr * (r + df * maxQValue qt s2 - qvalGet qt s a)) ∧
    (qvalGet (updateQTable [] s a r s2) s a = lr * r) ∧
    (0 ≤ maxQValue qt s2) ∧
    (lookup? qt s2 = none → maxQValue qt s2 = 0) ∧
    (∀ row, lookup? qt s2 = some row →
      (∀ p ∈ row, p.2 ≤ maxQValue qt s2) ∧
      (maxQValue qt s2 = 0 ∨ ∃ p ∈ row, p.2 = maxQValue qt s2)) := by
  refine ⟨?_, ?_, ?_, ?_, ?_⟩
  · unfold updateQTable
    rw [qvalGet_qset_self, qvalGet_qtouch, maxQValue_qtouch]
  · unfold updateQTable
    rw [qvalGet_qset_self, qvalGet_qtouch, maxQValue_qtouch]
    have h1 : qvalGet [] s a = 0 := by simp [qvalGet, lookup?]
    have h2 : maxQValue [] s2 = 0 := by simp [maxQValue, lookup?]
    rw [h1, h2]
    ring
  · unfold maxQValue
    cases hr : lookup? qt s2 with
    | none => exact le_refl 0
    | some row => exact le_rowMax_init row 0
  · intro hr
    unfold maxQValue
    rw [hr]
  · intro row hr
    unfold maxQValue
    rw [hr]
    exact ⟨fun p hp => mem_le_rowMax row 0 p hp, rowMax_cases row 0⟩

lemma promote_fields (t : Int) (s : State) :
    promote t s =
      { notes := if t = 101 ∧ s.notes < 2 then s.notes + 1 else s.notes,
        chords := if 102 ≤ t ∧ t ≤ 103 ∧ s.chords < 2 then s.chords + 1
          else s.chords,
        scales := if 104 ≤ t ∧ s.scales < 2 then s.scales + 1 else s.scales } := by
  by_cases h1 : t = 101 ∧ s.notes < 2 <;>
    by_cases h2 : 102 ≤ t ∧ t ≤ 103 ∧ s.chords < 2 <;>
    by_cases h3 : 104 ≤ t ∧ s.scales < 2 <;>
    simp [promote, h1, h2, h3]

lemma demote_fields (t : Int) (s : State) :
    demote t s =
      { notes := if t = 101 ∧ s.notes > 0 then s.notes - 1 else s.notes,
        chords := if 102 ≤ t ∧ t ≤ 103 ∧ s.chords > 0 then s.chords - 1
          else s.chords,
        scales := if 104 ≤ t ∧ s.scales > 0 then s.scales - 1 else s.scales } := by
  by_cases h1 : t = 101 ∧ s.notes > 0 <;>
    by_cases h2 : 102 ≤ t ∧ t ≤ 103 ∧ s.chords > 0 <;>
    by_cases h3 : 104 ≤ t ∧ s.scales > 0 <;>
    simp [demote, h1, h2, h3]

lemma inRange_promote (t : Int) (s : State) (h : inRange s) :
    inRange (promote t s) := by
  rw [promote_fields]
  unfold inRange at h ⊢
  dsimp only
  split_ifs <;> omega

lemma inRange_demote (t : Int) (s : State) (h : inRange s) :
    inRange (demote t s) := by
  rw [demote_fields]
  unfold inRange at h ⊢
  dsimp only
  split_ifs <;> omega

lemma updateState_state_cases (bank : Bank) (cc ic : List (Int × Int))
    (qid : Int) (c : Bool) (st : State) :
    (updateState bank cc ic qid c st).state = st ∨
    (∃ t, (updateState bank cc ic qid c st).state = promote t st) ∨
    (∃ t, (updateState bank cc ic qid c st).state = demote t st) := by
  simp only [updateState]
  split_ifs <;>
    first
      | exact Or.inl rfl
      | exact Or.inr (Or.inl ⟨_, rfl⟩)
      | exact Or.inr (Or.inr ⟨_, rfl⟩)

lemma inRange_updateState (bank : Bank) (cc ic : List (Int × Int)) (qid : Int)
    (c : Bool) (st : State) (h : inRange st) :
    inRange (updateState bank cc ic qid c st).state := by
  rcases updateState_state_cases bank cc ic qid c st with h1 | ⟨t, h1⟩ | ⟨t, h1⟩ <;>
    rw [h1]
  · exact h
  · exact inRange_promote _ _ h
  · exact inRange_demote _ _ h

lemma inRange_evaluateResponse (qz : Quiz) (qid : Int) (c : Bool)
    (h : inRange qz.state) : inRange (evaluateResponse qz qid c).state := by
  unfold evaluateResponse
  exact inRange_updateState _ _ _ _ _ _ h

lemma inRange_foldl (l : List (Int × Bool)) :
    ∀ qz : Quiz, inRange qz.state →
      inRange ((l.foldl (fun qz e => evaluateResponse qz e.1 e.2) qz).state) := by
  induction l with
  | nil => intro qz h; exact h
  | cons e rest ih =>
      intro qz h
      exact ih _ (inRange_evaluateResponse qz e.1 e.2 h)

/-- C1.  From an initial SkillState with all domains in [0,2], every finite
sequence of evaluateResponse calls keeps every domain of the current
SkillState in [0,2] (instantiating the sequence at each prefix gives the
bound after every call). -/
theorem C1_skillstate_clamped (bank : Bank) (qt : QTable) (s0 : State)
    (h : inRange s0) (responses : List (Int × Bool)) :
    inRange ((responses.foldl (fun qz e => evaluateResponse qz e.1 e.2)
      (mkQuiz bank qt s0)).state) :=
  inRange_foldl responses (mkQuiz bank qt s0) h

/-- Witness for C1 at a concrete bank, state and response sequence. -/
theorem C1_skillstate_clamped_witness :
    inRange (([((3 : Int), true), (3, false)].foldl
      (fun qz e => evaluateResponse qz e.1 e.2)
      (mkQuiz [(3, { topicID := 101, difficulty := 0, description := "n" })] []
        { notes := 0, chords := 0, scales := 0 })).state) :=
  C1_skillstate_clamped _ _ _ (by decide) _

/-- C3.  For a questionID present in the bank, updateState on a correct
answer adds the difficulty-weighted points (0 gives 1 point, 1 gives 2,
2 gives 3) to the correct streak, zeroes the incorrect streak, and on
reaching at least 4 promotes the topic-selected domain (101 notes, 102-103
chords, at least 104 scales; capped at 2) and resets the streak; on an
incorrect answer it adds exactly 1 to the incorrect streak, zeroes the
correct streak, and on reaching at least 4 demotes the domain (floored at 0)
and resets the streak. -/
theorem C3_streak_thresholds (bank : Bank) (cc ic : List (Int × Int))
    (qid : Int) (correct : Bool) (st : State) (q : Question)
    (h : lookup? bank qid = some q) :
    (pointsFor 0 = 1 ∧ pointsFor 1 = 2 ∧ pointsFor 2 = 3) ∧
    (correct = true →
      cntGet (updateState bank cc ic qid correct st).correctCounts qid =
        (if 4 ≤ cntGet cc qid + pointsFor q.difficulty then 0
          else cntGet cc qid + pointsFor q.difficulty) ∧
      cntGet (updateState bank cc ic qid correct st).incorrectCounts qid = 0 ∧
      (updateState bank cc ic qid correct st).state =
        (if 4 ≤ cntGet cc qid + pointsFor q.difficulty then promote q.topicID st
          else st)) ∧
    (correct = false →
      cntGet (updateState bank cc ic qid correct st).incorrectCounts qid =
        (if 4 ≤ cntGet ic qid + 1 then 0 else cntGet ic qid + 1) ∧
      cntGet (updateState bank cc ic qid correct st).correctCounts qid = 0 ∧
      (updateState bank cc ic qid correct st).state =
        (if 4 ≤ cntGet ic qid + 1 then demote q.topicID st else st)) ∧
    ((promote q.topicID st).notes =
      (if q.topicID = 101 ∧ st.notes < 2 then st.notes + 1 else st.notes)) ∧
    ((promote q.topicID st).chords =
      (if 102 ≤ q.topicID ∧ q.topicID ≤ 103 ∧ st.chords < 2 then st.chords + 1
        else st.chords)) ∧
    ((promote q.topicID st).scales =
      (if 104 ≤ q.topicID ∧ st.scales < 2 then st.scales + 1 else st.scales)) ∧
    ((demote q.topicID st).notes =
      (if q.topicID = 101 ∧ st.notes > 0 then st.notes - 1 else st.notes)) ∧
    ((demote q.topicID st).chords =
      (if 102 ≤ q.topicID ∧ q.topicID ≤ 103 ∧ st.chords > 0 then st.chords - 1
        else st.chords)) ∧
    ((demote q.topicID st).scales =
      (if 104 ≤ q.topicID ∧ st.scales > 0 then st.scales - 1 else st.scales)) := by
  have hsome : (lookup? bank qid).isSome := by simp [h]
  have htb : touchBank bank qid = bank := touchKey_of_isSome _ _ _ _ hsome
  refine ⟨⟨by decide, by decide, by decide⟩, ?_, ?_, ?_, ?_, ?_, ?_, ?_, ?_⟩
  · intro hc
    subst hc
    simp only [updateState, htb, h, Option.getD_some, if_true, correctThreshold,
      ge_iff_le]
    split_ifs with hth
    · exact ⟨by simp [cntGet, lookup_setKey_self], by simp [cntGet, lookup_setKey_self], rfl⟩
    · exact ⟨by simp [cntGet, lookup_setKey_self], by simp [cntGet, lookup_setKey_self], rfl⟩
  · intro hc
    subst hc
    simp only [updateState, htb, h, Option.getD_some, Bool.false_eq_true,
      if_false, incorrectThreshold, ge_iff_le]
    split_ifs with hth
    · exact ⟨by simp [cntGet, lookup_setKey_self], by simp [cntGet, lookup_setKey_self], rfl⟩
    · exact ⟨by simp [cntGet, lookup_setKey_self], by simp [cntGet, lookup_setKey_self], rfl⟩
  · simp [promote_fields]
  · simp [promote_fields]
  · simp [promote_fields]
  · simp [demote_fields]
  · simp [demote_fields]
  · simp [demote_fields]

/-- Witness for C3: a one-question bank, empty counters, a correct answer. -/
theorem C3_streak_thresholds_witness :
    cntGet (updateState
        [((5 : Int), { topicID := 101, difficulty := 0, description := "d" })]
        [] [] 5 true { notes := 0, chords := 0, scales := 0 }).correctCounts 5 =
      (if 4 ≤ cntGet [] 5 +
          pointsFor (Question.difficulty
            { topicID := 101, difficulty := 0, description := "d" }) then 0
        else cntGet [] 5 +
          pointsFor (Question.difficulty
            { topicID := 101, difficulty := 0, description := "d" })) :=
  ((C3_streak_thresholds
      [((5 : Int), { topicID := 101, difficulty := 0, description := "d" })]
      [] [] 5 true { notes := 0, chords := 0, scales := 0 }
      { topicID := 101, difficulty := 0, description := "d" }
      (by decide)).2.1 rfl).1

/-- C4.  getReward returns exactly 5.0 iff the answer is correct and some
skill domain strictly increased; exactly 2.5 iff correct with no increase;
exactly -2.5 iff incorrect. -/
theorem C4_reward_sign (before after : State) (correct : Bool) :
    (getReward before after correct = 5 ↔ correct = true ∧
      (before.notes < after.notes ∨ before.chords < after.chords ∨
        before.scales < after.scales)) ∧
    (getReward before after correct = 5 / 2 ↔ correct = true ∧
      ¬(before.notes < after.notes ∨ before.chords < after.chords ∨
        before.scales < after.scales)) ∧
    (getReward before after correct = -(5 / 2) ↔ correct = false) := by
  unfold getReward
  rcases correct with _ | _ <;> split_ifs with h1 h2
  all_goals simp_all
  all_goals norm_num
  all_goals tauto

/-- C5.  Membership in getActionsForStateLevel is exactly the topic/difficulty
filter of the claim (stretch = 1 when allowed, else 0), and a question whose
topic is at most 100 is never selected. -/
theorem C5_candidate_filter (bank : Bank) (st : State) (allowStretch : Bool)
    (qid : Int) :
    (qid ∈ getActionsForStateLevel bank st allowStretch ↔
      ∃ q : Question, (qid, q) ∈ bank ∧
        ((q.topicID = 101 ∧
            q.difficulty ≤ st.notes + (if allowStretch then 1 else 0)) ∨
         (102 ≤ q.topicID ∧ q.topicID ≤ 103 ∧
            q.difficulty ≤ st.chords + (if allowStretch then 1 else 0)) ∨
         (104 ≤ q.topicID ∧
            q.difficulty ≤ st.scales + (if allowStretch then 1 else 0)))) ∧
    ((∀ q : Question, (qid, q) ∈ bank → q.topicID ≤ 100) →
      qid ∉ getActionsForStateLevel bank st allowStretch) := by
  constructor
  · unfold getActionsForStateLevel qualifies
    simp only [List.mem_map, List.mem_filter]
    constructor
    · rintro ⟨⟨k, q⟩, ⟨hmem, hq⟩, hk⟩
      subst hk
      exact ⟨q, hmem, by simpa using hq⟩
    · rintro ⟨q, hmem, hq⟩
      exact ⟨(qid, q), ⟨hmem, by simpa using hq⟩, rfl⟩
  · intro hlow hmem
    unfold getActionsForStateLevel qualifies at hmem
    simp only [List.mem_map, List.mem_filter] at hmem
    rcases hmem with ⟨⟨k, q⟩, ⟨hmem, hq⟩, hk⟩
    subst hk
    have ht := hlow q hmem
    simp only [decide_eq_true_eq] at hq
    rcases hq with ⟨h1, _⟩ | ⟨h1, _, _⟩ | ⟨h1, _⟩
    all_goals omega

/-- The value accumulator of the exploit scan, read from a fixed table
(the table evolution of exploitLoop never changes the values it reads). -/
def pureLoop (val : Int → ℚ) : List Int → Int → ℚ → Int × ℚ
  | [], b, v => (b, v)
  | x :: r, b, v =>
      if val x > v then pureLoop val r x (val x) else pureLoop val r b v

/-- Touch (materialize) every listed entry in the row of s, left to right. -/
def touchAll (s : State) (qt : QTable) (l : List Int) : QTable :=
  l.foldl (fun t x => qtouch t s x) qt

lemma qvalGet_touchAll (s : State) (l : List Int) :
    ∀ (qt : QTable) (s2 : State) (b : Int),
      qvalGet (touchAll s qt l) s2 b = qvalGet qt s2 b := by
  induction l with
  | nil => intro qt s2 b; rfl
  | cons x r ih =>
      intro qt s2 b
      have : touchAll s qt (x :: r) = touchAll s (qtouch qt s x) r := rfl
      rw [this, ih, qvalGet_qtouch]

lemma rowLookup_qtouch_self (qt : QTable) (s : State) (a : Int) :
    rowLookup (qtouch qt s a) s a = some (qvalGet qt s a) := by
  unfold qtouch rowLookup qvalGet
  rw [lookup_setKey_self]
  cases ha : (lookup? ((lookup? qt s).getD []) a) with
  | none => simp [ha, lookup_setKey_self]
  | some x => simp [ha]

lemma rowLookup_qtouch_ne (qt : QTable) (s : State) (a b : Int) (hne : b ≠ a) :
    rowLookup (qtouch qt s a) s b = rowLookup qt s b := by
  unfold qtouch rowLookup
  rw [lookup_setKey_self]
  cases ha : (lookup? ((lookup? qt s).getD []) a).isSome with
  | true => simp [ha]
  | false =>
      simp only [ha, Bool.false_eq_true, if_false, Option.getD_some]
      rw [lookup_setKey_ne _ _ _ _ _ hne]

lemma rowLookup_touchAll_of_some (s : State) (l : List Int) :
    ∀ (qt : QTable) (b : Int) (w : ℚ), rowLookup qt s b = some w →
      rowLookup (touchAll s qt l) s b = some w := by
  induction l with
  | nil => intro qt b w h; exact h
  | cons y r ih =>
      intro qt b w h
      have hstep : touchAll s qt (y :: r) = touchAll s (qtouch qt s y) r := rfl
      rw [hstep]
      apply ih
      by_cases hb : b = y
      · subst hb
        rw [rowLookup_qtouch_self]
        have : qvalGet qt s b = w := by
          unfold qvalGet
          unfold rowLookup at h
          rw [h]
          rfl
        rw [this]
      · rw [rowLookup_qtouch_ne _ _ _ _ hb]
        exact h

lemma rowLookup_touchAll_mem (s : State) (l : List Int) :
    ∀ (qt : QTable), ∀ x ∈ l,
      rowLookup (touchAll s qt l) s x = some (qvalGet qt s x) := by
  induction l with
  | nil => intro qt x hx; simp at hx
  | cons y r ih =>
      intro qt x hx
      have hstep : touchAll s qt (y :: r) = touchAll s (qtouch qt s y) r := rfl
      rw [hstep]
      rcases List.mem_cons.mp hx with h1 | h1
      · subst h1
        apply rowLookup_touchAll_of_some
        exact rowLookup_qtouch_self qt s x
      · rw [ih (qtouch qt s y) x h1, qvalGet_qtouch]

lemma exploitLoop_eq (s : State) (l : List Int) :
    ∀ (qt : QTable) (b : Int) (v : ℚ),
      exploitLoop s qt l b v =
        (touchAll s qt l, pureLoop (fun x => qvalGet qt s x) l b v) := by
  induction l with
  | nil => intro qt b v; rfl
  | cons x r ih =>
      intro qt b v
      have hval : (fun y => qvalGet (qtouch qt s x) s y) =
          (fun y => qvalGet qt s y) := funext (fun y => qvalGet_qtouch qt s x s y)
      have hstep : touchAll s qt (x :: r) = touchAll s (qtouch qt s x) r := rfl
      show (if qvalGet (qtouch qt s x) s x > v
          then exploitLoop s (qtouch qt s x) r x (qvalGet (qtouch qt s x) s x)
          else exploitLoop s (qtouch qt s x) r b v) = _
      rw [qvalGet_qtouch]
      unfold pureLoop
      split_ifs with hc
      · rw [ih, hval, hstep]
      · rw [ih, hval, hstep]

lemma pureLoop_spec (val : Int → ℚ) :
    ∀ (r : List Int) (b : Int),
      ∃ b2, pureLoop val r b (val b) = (b2, val b2) ∧
        ((b2 = b ∧ ∀ x ∈ r, val x ≤ val b) ∨
         (∃ r1 r2, r = r1 ++ b2 :: r2 ∧ val b < val b2 ∧
           (∀ x ∈ r1, val x < val b2) ∧ (∀ x ∈ r2, val x ≤ val b2))) := by
  intro r
  induction r with
  | nil =>
      intro b
      exact ⟨b, rfl, Or.inl ⟨rfl, by simp⟩⟩
  | cons x r ih =>
      intro b
      by_cases hx : val x > val b
      · obtain ⟨b2, heq, hspec⟩ := ih x
        refine ⟨b2, by simpa [pureLoop, hx] using heq, Or.inr ?_⟩
        rcases hspec with ⟨hb2, hall⟩ | ⟨r1, r2, hdec, hlt, hbefore, hafter⟩
        · subst hb2
          exact ⟨[], r, by simp, hx, by simp, hall⟩
        · refine ⟨x :: r1, r2, by rw [hdec]; rfl, lt_trans hx hlt, ?_, hafter⟩
          intro y hy
          rcases List.mem_cons.mp hy with h1 | h1
          · subst h1; exact hlt
          · exact hbefore y h1
      · obtain ⟨b2, heq, hspec⟩ := ih b
        refine ⟨b2, by simpa [pureLoop, hx] using heq, ?_⟩
        rcases hspec with ⟨hb2, hall⟩ | ⟨r1, r2, hdec, hlt, hbefore, hafter⟩
        · refine Or.inl ⟨hb2, ?_⟩
          intro y hy
          rcases List.mem_cons.mp hy with h1 | h1
          · subst h1; exact not_lt.mp hx
          · exact hall y h1
        · refine Or.inr ⟨x :: r1, r2, by rw [hdec]; rfl, hlt, ?_, hafter⟩
          intro y hy
          rcases List.mem_cons.mp hy with h1 | h1
          · subst h1; exact lt_of_le_of_lt (not_lt.mp hx) hlt
          · exact hbefore y h1

lemma mem_candidates_isSome (qz : Quiz) (e : Bool) (x : Int)
    (h : x ∈ candidatesOf qz e) : (lookup? qz.questionBankByID x).isSome := by
  unfold candidatesOf getActionsForStateLevel at h
  simp only [List.mem_map, List.mem_filter] at h
  rcases h with ⟨⟨k, q⟩, ⟨hmem, _⟩, hk⟩
  subst hk
  exact lookup_isSome_of_mem _ _ _ hmem

lemma mem_effectivePool_candidates (qz : Quiz) (e : Bool) (x : Int)
    (h : x ∈ effectivePool qz e) : x ∈ candidatesOf qz e := by
  unfold effectivePool at h
  split_ifs at h with h1
  · exact h
  · exact List.mem_of_mem_filter h

lemma groupScan_bank_eq (bank : Bank) (l : List Int)
    (h : ∀ x ∈ l, (lookup? bank x).isSome) : (groupScan bank l).1 = bank := by
  induction l with
  | nil => rfl
  | cons y r ih =>
      have hy : (lookup? bank y).isSome := h y (List.mem_cons_self y r)
      have htb : touchBank bank y = bank := touchKey_of_isSome _ _ _ _ hy
      have ihr : (groupScan bank r).1 = bank :=
        ih (fun x hx => h x (List.mem_cons_of_mem y hx))
      show (let bank1 := touchBank bank y
        let tid := ((lookup? bank1 y).getD defaultQuestion).topicID
        let r2 := groupScan bank1 r
        if tid = 101 then (r2.1, y :: r2.2.1, r2.2.2.1, r2.2.2.2)
        else if 101 ≤ tid ∧ tid ≤ 102 then (r2.1, r2.2.1, y :: r2.2.2.1, r2.2.2.2)
        else if tid = 104 then (r2.1, r2.2.1, r2.2.2.1, y :: r2.2.2.2)
        else r2).1 = bank
      rw [htb]
      dsimp only
      split_ifs <;> simpa using ihr

lemma getNextAction_snd (qz : Quiz) (e : Bool) (rc ri : Nat) :
    (getNextAction qz e rc ri).2 =
      { qz with
        askedQuestionsThisSession :=
          if (filteredOf qz e).isEmpty then [] else qz.askedQuestionsThisSession,
        q_table :=
          if e = true then qz.q_table
          else
            match effectivePool qz false with
            | [] => qz.q_table
            | h :: t => touchAll qz.state qz.q_table (h :: t) } := by
  cases e with
  | true =>
      rcases hpe : effectivePool qz true with _ | ⟨h, t⟩
      · rcases hb : qz.questionBankByID with _ | ⟨p, rest⟩ <;>
          simp [getNextAction, hpe, hb]
      · have hg : (groupScan qz.questionBankByID (h :: t)).1 =
            qz.questionBankByID := by
          apply groupScan_bank_eq
          intro x hx
          exact mem_candidates_isSome qz true x
            (mem_effectivePool_candidates qz true x (by rw [hpe]; exact hx))
        simp [getNextAction, hpe, hg]
  | false =>
      rcases hpe : effectivePool qz false with _ | ⟨h, t⟩
      · rcases hb : qz.questionBankByID with _ | ⟨p, rest⟩ <;>
          simp [getNextAction, hpe, hb]
      · simp [getNextAction, hpe, exploitLoop_eq]

lemma touchKey_idem {κ α : Type} [DecidableEq κ] (lt : κ → κ → Bool)
    (m : List (κ × α)) (k : κ) (d : α) :
    touchKey lt (touchKey lt m k d) k d = touchKey lt m k d := by
  apply touchKey_of_isSome
  rw [lookup_touchKey_self]
  rfl

lemma updateState_bank (bank : Bank) (cc ic : List (Int × Int)) (qid : Int)
    (c : Bool) (st : State) :
    (updateState bank cc ic qid c st).bank = touchBank bank qid := by
  simp only [updateState]
  split_ifs <;> rfl

lemma evaluateResponse_bank (qz : Quiz) (qid : Int) (c : Bool) :
    (evaluateResponse qz qid c).questionBankByID =
      touchBank qz.questionBankByID qid := by
  show (updateState (touchBank qz.questionBankByID qid) _ _ _ _ _).bank = _
  rw [updateState_bank]
  exact touchKey_idem _ _ _ _

lemma evaluateResponse_history_eq (qz : Quiz) (qid : Int) (c : Bool) :
    (evaluateResponse qz qid c).history = qz.history ++
      [(qz.state, qid,
        ((lookup? qz.questionBankByID qid).getD defaultQuestion).description,
        c)] := by
  simp [evaluateResponse, touchBank, lookup_touchKey_self]

lemma evaluateResponse_total (qz : Quiz) (qid : Int) (c : Bool) :
    (evaluateResponse qz qid c).totalQuestions = qz.totalQuestions + 1 := rfl

/-- A sample engine configuration for the exploit-branch selection: two
questions at the level of the learner, one of which has a stored Q-value. -/
def quizA : Quiz :=
  { q_table := [({ notes := 0, chords := 0, scales := 0 }, [((2 : Int), (3 : ℚ))])],
    state := { notes := 0, chords := 0, scales := 0 },
    questionBankByID :=
      [((1 : Int), { topicID := 101, difficulty := 0, description := "a" }),
       ((2 : Int), { topicID := 101, difficulty := 0, description := "b" })],
    history := [], askedQuestionsThisSession := [],
    correctCounts := [], incorrectCounts := [],
    score := 0, correctAnswers := 0, totalQuestions := 0 }

/-- C6.  In the exploit branch (explore draw false), the returned id is a
member of the effective candidate pool attaining the maximum Q-value for the
current state (absent entries count as 0), every earlier pool element has a
strictly smaller value (first-encountered tie-breaking), and under the
std::map key ordering of the bank the pool iterates in ascending id order. -/
theorem C6_exploit_argmax (qz : Quiz) (rc ri : Nat)
    (hpool : effectivePool qz false ≠ [])
    (hval : ∀ x ∈ effectivePool qz false,
      sentinel < qvalGet qz.q_table qz.state x)
    (hsorted : List.Pairwise (fun a b => a.1 < b.1) qz.questionBankByID) :
    ∃ best l1 l2,
      (getNextAction qz false rc ri).1 = some best ∧
      effectivePool qz false = l1 ++ best :: l2 ∧
      (∀ x ∈ l1, qvalGet qz.q_table qz.state x <
        qvalGet qz.q_table qz.state best) ∧
      (∀ x ∈ l2, qvalGet qz.q_table qz.state x ≤
        qvalGet qz.q_table qz.state best) ∧
      List.Pairwise (fun a b => a < b) (effectivePool qz false) := by
  have hcand : List.Pairwise (fun a b => a < b) (candidatesOf qz false) := by
    unfold candidatesOf getActionsForStateLevel
    rw [List.pairwise_map]
    exact List.Pairwise.sublist (List.filter_sublist _) hsorted
  have hpair : List.Pairwise (fun a b => a < b) (effectivePool qz false) := by
    unfold effectivePool filteredOf
    split_ifs
    · exact hcand
    · exact List.Pairwise.sublist (List.filter_sublist _) hcand
  rcases hpe : effectivePool qz false with _ | ⟨h, t⟩
  · exact absurd hpe hpool
  · have hfst : (getNextAction qz false rc ri).1 =
        some (pureLoop (fun x => qvalGet qz.q_table qz.state x)
          (h :: t) h sentinel).1 := by
      simp [getNextAction, hpe, exploitLoop_eq]
    have hh : qvalGet qz.q_table qz.state h > sentinel :=
      hval h (by rw [hpe]; exact List.mem_cons_self h t)
    have hstep : pureLoop (fun x => qvalGet qz.q_table qz.state x)
        (h :: t) h sentinel =
        pureLoop (fun x => qvalGet qz.q_table qz.state x) t h
          (qvalGet qz.q_table qz.state h) := by
      simp [pureLoop, hh]
    obtain ⟨b2, heq, hspec⟩ :=
      pureLoop_spec (fun x => qvalGet qz.q_table qz.state x) t h
    have hb2 : (getNextAction qz false rc ri).1 = some b2 := by
      rw [hfst, hstep, heq]
    rcases hspec with ⟨hb, hall⟩ | ⟨r1, r2, hdec, hlt, hbef, haft⟩
    · subst hb
      refine ⟨b2, [], t, hb2, rfl, by simp, ?_, hpe ▸ hpair⟩
      intro x hx
      exact hall x hx
    · refine ⟨b2, h :: r1, r2, hb2, ?_, ?_, haft, hpe ▸ hpair⟩
      · rw [hdec]
        rfl
      · intro x hx
        rcases List.mem_cons.mp hx with h1 | h1
        · subst h1; exact hlt
        · exact hbef x h1

/-- Witness for C6: the pool of quizA is [1, 2] with values 0 and 3; the scan
must return id 2. -/
theorem C6_exploit_argmax_witness :
    ∃ best l1 l2,
      (getNextAction quizA false 0 0).1 = some best ∧
      effectivePool quizA false = l1 ++ best :: l2 ∧
      (∀ x ∈ l1, qvalGet quizA.q_table quizA.state x <
        qvalGet quizA.q_table quizA.state best) ∧
      (∀ x ∈ l2, qvalGet quizA.q_table quizA.state x ≤
        qvalGet quizA.q_table quizA.state best) ∧
      List.Pairwise (fun a b => a < b) (effectivePool quizA false) :=
  C6_exploit_argmax quizA 0 0 (by decide) (by decide) (by decide)

lemma pick_isSome (l : List Int) (r : Nat) (h : l ≠ []) :
    ∃ y, pick l r = some y := by
  have hlen : 0 < l.length := List.length_pos.mpr h
  have hmod : r % l.length < l.length := Nat.mod_lt _ hlen
  exact ⟨l.get ⟨r % l.length, hmod⟩, List.get?_eq_get hmod⟩

lemma getNextAction_fst_isSome (qz : Quiz) (e : Bool) (rc ri : Nat)
    (hbank : qz.questionBankByID ≠ []) :
    ∃ id, (getNextAction qz e rc ri).1 = some id := by
  rcases hpe : effectivePool qz e with _ | ⟨h, t⟩
  · rcases hb : qz.questionBankByID with _ | ⟨p, rest⟩
    · exact absurd hb hbank
    · exact ⟨p.1, by simp [getNextAction, hpe, hb]⟩
  · cases e with
    | false =>
        exact ⟨(exploitLoop qz.state qz.q_table (h :: t) h sentinel).2.1,
          by simp [getNextAction, hpe]⟩
    | true =>
        by_cases h0 : rc % 3 = 0 ∧
            (groupScan qz.questionBankByID (h :: t)).2.1 ≠ []
        · obtain ⟨y, hy⟩ := pick_isSome _ ri h0.2
          exact ⟨y, by simp [getNextAction, hpe, h0, hy]⟩
        · by_cases h1 : rc % 3 = 1 ∧
              (groupScan qz.questionBankByID (h :: t)).2.2.1 ≠ []
          · obtain ⟨y, hy⟩ := pick_isSome _ ri h1.2
            exact ⟨y, by simp [getNextAction, hpe, h0, h1, hy]⟩
          · by_cases h2 : rc % 3 = 2 ∧
                (groupScan qz.questionBankByID (h :: t)).2.2.2 ≠ []
            · obtain ⟨y, hy⟩ := pick_isSome _ ri h2.2
              exact ⟨y, by simp [getNextAction, hpe, h0, h1, h2, hy]⟩
            · obtain ⟨y, hy⟩ := pick_isSome (h :: t) ri (List.cons_ne_nil _ _)
              exact ⟨y, by simp [getNextAction, hpe, h0, h1, h2, hy]⟩

/-- A one-question bank whose sole question (topic 104, difficulty 2) is
excluded by the candidate filter at skill state (0,0,0) even with stretch. -/
def quizB : Quiz :=
  mkQuiz [((7 : Int), { topicID := 104, difficulty := 2, description := "s" })]
    [] { notes := 0, chords := 0, scales := 0 }

/-- C7 (amended).  With a nonempty bank, selectNextQuestion always returns
an id; when the effective pool is empty it returns the first (hence, for a
key-sorted bank, lowest-keyed) bank entry; and when the session filter
empties the pool the asked-set is cleared and the unfiltered candidate pool
is reused. -/
theorem C7_selection_total (qz : Quiz) (e : Bool) (rc ri : Nat)
    (hbank : qz.questionBankByID ≠ []) :
    (∃ id, (getNextAction qz e rc ri).1 = some id) ∧
    (effectivePool qz e = [] →
      ∃ p rest, qz.questionBankByID = p :: rest ∧
        (getNextAction qz e rc ri).1 = some p.1 ∧
        (List.Pairwise (fun a b => a.1 < b.1) qz.questionBankByID →
          ∀ r ∈ qz.questionBankByID, p.1 ≤ r.1)) ∧
    (filteredOf qz e = [] →
      (getNextAction qz e rc ri).2.askedQuestionsThisSession = [] ∧
      effectivePool qz e = candidatesOf qz e) := by
  refine ⟨getNextAction_fst_isSome qz e rc ri hbank, ?_, ?_⟩
  · intro hpe
    rcases hb : qz.questionBankByID with _ | ⟨p, rest⟩
    · exact absurd hb hbank
    · refine ⟨p, rest, rfl, by simp [getNextAction, hpe, hb], ?_⟩
      intro hsorted r hr
      rcases List.mem_cons.mp hr with h1 | h1
      · subst h1
        exact le_refl _
      · exact le_of_lt ((List.pairwise_cons.mp hsorted).1 r h1)
  · intro hf
    constructor
    · rw [getNextAction_snd]
      simp [hf]
    · unfold effectivePool
      simp [hf]

/-- Counterexample to C7 as stated: with an empty question bank the
fallback dereferences begin() of an empty map (undefined behavior, modelled
as no id), so the engine does not return a questionID. -/
theorem C7_empty_bank_counterexample :
    (getNextAction (mkQuiz [] [] { notes := 0, chords := 0, scales := 0 })
      false 0 0).1 = none := by decide

/-- Witness for C7: the pool of quizB is empty, yet id 7 is returned. -/
theorem C7_selection_total_witness :
    (∃ id, (getNextAction quizB true 0 0).1 = some id) ∧
    (getNextAction quizB true 0 0).2.askedQuestionsThisSession = [] :=
  ⟨(C7_selection_total quizB true 0 0 (by decide)).1,
   ((C7_selection_total quizB true 0 0 (by decide)).2.2 (by decide)).1⟩

lemma getNextAction_bank (qz : Quiz) (e : Bool) (rc ri : Nat) :
    (getNextAction qz e rc ri).2.questionBankByID = qz.questionBankByID := by
  rw [getNextAction_snd]

lemma getNextAction_history (qz : Quiz) (e : Bool) (rc ri : Nat) :
    (getNextAction qz e rc ri).2.history = qz.history := by
  rw [getNextAction_snd]

lemma getNextAction_total (qz : Quiz) (e : Bool) (rc ri : Nat) :
    (getNextAction qz e rc ri).2.totalQuestions = qz.totalQuestions := by
  rw [getNextAction_snd]

/-- The questionIDs of the answer events in an operation sequence. -/
def answerIdsOf (evs : List Event) : List Int :=
  evs.filterMap (fun ev => match ev with
    | Event.answer qid _ => some qid
    | Event.select _ _ _ => none)

lemma runEvents_bank_inv (bank : Bank) (evs : List Event) :
    ∀ qz : Quiz, qz.questionBankByID = bank →
      (∀ qid ∈ answerIdsOf evs, (lookup? bank qid).isSome) →
      (runEvents qz evs).questionBankByID = bank := by
  induction evs with
  | nil => intro qz hqz _; exact hqz
  | cons ev rest ih =>
      intro qz hqz h
      have hstep : runEvents qz (ev :: rest) = runEvents (stepEvent qz ev) rest :=
        rfl
      rw [hstep]
      cases ev with
      | select e rc ri =>
          apply ih
          · rw [show stepEvent qz (Event.select e rc ri) =
              (getNextAction qz e rc ri).2 from rfl]
            rw [getNextAction_bank]
            exact hqz
          · intro qid hqid
            apply h
            simpa [answerIdsOf] using hqid
      | answer qid c =>
          have hq : (lookup? bank qid).isSome := by
            apply h
            simp [answerIdsOf]
          apply ih
          · rw [show stepEvent qz (Event.answer qid c) =
              evaluateResponse qz qid c from rfl]
            rw [evaluateResponse_bank, hqz]
            exact touchKey_of_isSome _ _ _ _ hq
          · intro qid2 hqid2
            apply h
            simp only [answerIdsOf, List.filterMap_cons] at hqid2 ⊢
            exact List.mem_cons_of_mem _ hqid2

/-- C8 (amended).  The bank is unchanged by any operation sequence whose
evaluateResponse calls all use ids present in the bank (an unknown id
inserts a zero-filled default Question, see the counterexample). -/
theorem C8_bank_readonly (bank : Bank) (qt : QTable) (s0 : State)
    (evs : List Event)
    (h : ∀ qid ∈ answerIdsOf evs, (lookup? bank qid).isSome) :
    (runEvents (mkQuiz bank qt s0) evs).questionBankByID = bank :=
  runEvents_bank_inv bank evs (mkQuiz bank qt s0) rfl h

/-- Counterexample to C8 as stated: answering a questionID that is absent
from the bank mutates the bank (operator[] inserts a zero-filled default
Question under that id). -/
theorem C8_bank_mutation_counterexample :
    (evaluateResponse
      (mkQuiz [((1 : Int), { topicID := 101, difficulty := 0, description := "a" })]
        [] { notes := 0, chords := 0, scales := 0 }) 2 true).questionBankByID ≠
      [((1 : Int), { topicID := 101, difficulty := 0, description := "a" })] := by
  decide

/-- Witness for C8 at a concrete bank and event sequence. -/
theorem C8_bank_readonly_witness :
    (runEvents
      (mkQuiz [((1 : Int), { topicID := 101, difficulty := 0, description := "a" })]
        [] { notes := 0, chords := 0, scales := 0 })
      [Event.answer 1 true, Event.select false 0 0]).questionBankByID =
      [((1 : Int), { topicID := 101, difficulty := 0, description := "a" })] :=
  C8_bank_readonly _ _ _ _ (by decide)

lemma step_history_extends (qz : Quiz) (ev : Event) :
    ∃ tail, (stepEvent qz ev).history = qz.history ++ tail := by
  cases ev with
  | select e rc ri =>
      refine ⟨[], ?_⟩
      rw [show stepEvent qz (Event.select e rc ri) =
        (getNextAction qz e rc ri).2 from rfl]
      rw [getNextAction_history]
      simp
  | answer qid c =>
      exact ⟨_, evaluateResponse_history_eq qz qid c⟩

lemma runEvents_history_extends (evs : List Event) :
    ∀ qz : Quiz, ∃ tail, (runEvents qz evs).history = qz.history ++ tail := by
  induction evs with
  | nil => intro qz; exact ⟨[], by simp [runEvents]⟩
  | cons ev rest ih =>
      intro qz
      obtain ⟨t0, h0⟩ := step_history_extends qz ev
      obtain ⟨t1, h1⟩ := ih (stepEvent qz ev)
      refine ⟨t0 ++ t1, ?_⟩
      have hstep : runEvents qz (ev :: rest) = runEvents (stepEvent qz ev) rest :=
        rfl
      rw [hstep, h1, h0, List.append_assoc]

lemma step_total_length (qz : Quiz) (ev : Event)
    (h : qz.totalQuestions = (qz.history.length : Int)) :
    (stepEvent qz ev).totalQuestions =
      ((stepEvent qz ev).history.length : Int) := by
  cases ev with
  | select e rc ri =>
      rw [show stepEvent qz (Event.select e rc ri) =
        (getNextAction qz e rc ri).2 from rfl]
      rw [getNextAction_history, getNextAction_total]
      exact h
  | answer qid c =>
      rw [show stepEvent qz (Event.answer qid c) =
        evaluateResponse qz qid c from rfl]
      rw [evaluateResponse_total, evaluateResponse_history_eq, h]
      simp

lemma runEvents_total_length (evs : List Event) :
    ∀ qz : Quiz, qz.totalQuestions = (qz.history.length : Int) →
      (runEvents qz evs).totalQuestions =
        ((runEvents qz evs).history.length : Int) := by
  induction evs with
  | nil => intro qz h; exact h
  | cons ev rest ih =>
      intro qz h
      exact ih (stepEvent qz ev) (step_total_length qz ev h)

/-- C9.  From construction, history length always equals the
totalQuestions counter; each evaluateResponse appends exactly one entry
(state at answer time, questionID, description, correctness); question
selection leaves the history alone; and every operation only ever extends
the history. -/
theorem C9_history_append_only (bank : Bank) (qt : QTable) (s0 : State)
    (evs : List Event) (qz : Quiz) (qid : Int) (c : Bool) (e : Bool)
    (rc ri : Nat) :
    (runEvents (mkQuiz bank qt s0) evs).totalQuestions =
      ((runEvents (mkQuiz bank qt s0) evs).history.length : Int) ∧
    (evaluateResponse qz qid c).history = qz.history ++
      [(qz.state, qid,
        ((lookup? qz.questionBankByID qid).getD defaultQuestion).description,
        c)] ∧
    (evaluateResponse qz qid c).totalQuestions = qz.totalQuestions + 1 ∧
    (getNextAction qz e rc ri).2.history = qz.history ∧
    (∃ tail, (runEvents qz evs).history = qz.history ++ tail) :=
  ⟨runEvents_total_length evs (mkQuiz bank qt s0) rfl,
   evaluateResponse_history_eq qz qid c,
   evaluateResponse_total qz qid c,
   getNextAction_history qz e rc ri,
   runEvents_history_extends evs qz⟩

/-- A quiz whose only candidate has already been asked this session. -/
def quizC : Quiz :=
  { q_table := [], state := { notes := 0, chords := 0, scales := 0 },
    questionBankByID :=
      [((1 : Int), { topicID := 101, difficulty := 0, description := "a" })],
    history := [], askedQuestionsThisSession := [1],
    correctCounts := [], incorrectCounts := [],
    score := 0, correctAnswers := 0, totalQuestions := 0 }

/-- C10 (amended).  selectNextQuestion preserves score, counters, history,
streaks, skill state and bank; it preserves the asked-set unless the
session filter empties the pool, in which case the asked-set is cleared;
exploration leaves the Q-table untouched, while the exploit scan preserves
every Q-value but materializes an explicit 0.0 entry in the row of the
current state for every pool member without a stored value. -/
theorem C10_selection_frame (qz : Quiz) (e : Bool) (rc ri : Nat) :
    (getNextAction qz e rc ri).2.score = qz.score ∧
    (getNextAction qz e rc ri).2.correctAnswers = qz.correctAnswers ∧
    (getNextAction qz e rc ri).2.totalQuestions = qz.totalQuestions ∧
    (getNextAction qz e rc ri).2.history = qz.history ∧
    (getNextAction qz e rc ri).2.correctCounts = qz.correctCounts ∧
    (getNextAction qz e rc ri).2.incorrectCounts = qz.incorrectCounts ∧
    (getNextAction qz e rc ri).2.state = qz.state ∧
    (getNextAction qz e rc ri).2.questionBankByID = qz.questionBankByID ∧
    (filteredOf qz e ≠ [] →
      (getNextAction qz e rc ri).2.askedQuestionsThisSession =
        qz.askedQuestionsThisSession) ∧
    (filteredOf qz e = [] →
      (getNextAction qz e rc ri).2.askedQuestionsThisSession = []) ∧
    (e = true → (getNextAction qz e rc ri).2.q_table = qz.q_table) ∧
    (e = false →
      (∀ s2 b, qvalGet (getNextAction qz e rc ri).2.q_table s2 b =
        qvalGet qz.q_table s2 b) ∧
      (∀ x ∈ effectivePool qz false,
        rowLookup (getNextAction qz e rc ri).2.q_table qz.state x =
          some (qvalGet qz.q_table qz.state x))) := by
  refine ⟨by rw [getNextAction_snd], by rw [getNextAction_snd],
    by rw [getNextAction_snd], by rw [getNextAction_snd],
    by rw [getNextAction_snd], by rw [getNextAction_snd],
    by rw [getNextAction_snd], by rw [getNextAction_snd], ?_, ?_, ?_, ?_⟩
  · intro hf
    rw [getNextAction_snd]
    rcases hl : filteredOf qz e with _ | ⟨a, b⟩
    · exact absurd hl hf
    · simp [hl]
  · intro hf
    rw [getNextAction_snd]
    simp [hf]
  · intro he
    subst he
    rw [getNextAction_snd]
    simp
  · intro he
    subst he
    rw [getNextAction_snd]
    rcases hpe : effectivePool qz false with _ | ⟨h, t⟩
    · refine ⟨fun s2 b => by simp, ?_⟩
      intro x hx
      simp at hx
    · refine ⟨fun s2 b => by simp [qvalGet_touchAll], ?_⟩
      intro x hx
      simpa using rowLookup_touchAll_mem qz.state (h :: t) qz.q_table x hx

/-- Counterexample to C10 as stated: when every candidate was already asked
this session, selectNextQuestion clears the asked-set. -/
theorem C10_askedset_counterexample :
    ¬ ((getNextAction quizC false 0 0).2.askedQuestionsThisSession =
      quizC.askedQuestionsThisSession) := by decide

/-- Witness for C10: the asked-set clearing branch at quizC. -/
theorem C10_selection_frame_witness :
    (getNextAction quizC false 0 0).2.askedQuestionsThisSession = [] :=
  (C10_selection_frame quizC false 0 0).2.2.2.2.2.2.2.2.2.1 (by decide)

end KeyQuest
